import Mathlib

/-!
Verification development for the EasyStaff playback synchronization core.

The definitions below are a shallow embedding of the TypeScript sources:
  * `src/utils/audio-helpers.ts`   (timeline derivation: `prepareNotesForAudio`,
    `areNotesEquivalent`)
  * `src/utils/audio-engine.ts`    (`noteToFrequency`, `PianoAudioPlayer`)
  * `src/utils/partiture-player.ts` (`PartiturePlayer`, per-host closures)

JavaScript numbers are modelled as rationals (`ℚ`); the JS truthiness idiom
`x || d` on numbers is modelled by `qOr` (`0` falls back to the default, any
other rational is kept; `undefined` is modelled by `Option`).  DOM, timers and
the Web Audio graph are modelled by explicit state records and explicit clock
parameters (`audioTime` for `AudioContext.currentTime`, `nowPerf` for
`performance.now()`).
-/

namespace ES

/-- JS `a || b` for numbers already known to be defined: `0` is falsy. -/
def qOr (a b : ℚ) : ℚ := if a = 0 then b else a

/-- JS `x || d` where `x` may be `undefined` (`none`). -/
def optOr (a : Option ℚ) (b : ℚ) : ℚ :=
  match a with
  | none => b
  | some x => qOr x b

/-- Truncation toward zero, the rounding JS `%` uses. -/
def qTrunc (q : ℚ) : ℤ := if 0 ≤ q then ⌊q⌋ else ⌈q⌉

/-- JS remainder operator `a % b`: `a - b * trunc (a / b)`. -/
def jsMod (a b : ℚ) : ℚ := a - b * (qTrunc (a / b) : ℚ)

/-- `PartiturePlayer.clamp(value, min, max) = Math.min(max, Math.max(min, value))`. -/
def clamp (value lo hi : ℚ) : ℚ := min hi (max lo value)

/-! ## Data model (`src/content.config.ts` schemas) -/

/-- `NotePitchSchema`: step, octave, optional alter. -/
structure NotePitch where
  step : String
  octave : ℚ
  alter : Option ℚ
deriving DecidableEq

/-- `SlurSchema` (only the `type` field is read by the playback core). -/
structure Slur where
  type : String
deriving DecidableEq

/-- The `tied` notation object read (optionally) by `prepareNotesForAudio`. -/
structure Tied where
  type : String
deriving DecidableEq

/-- `NoteNotationsSchema` (source field name: `notations`); the `technical`
fingering data is not read by the playback core and is omitted. -/
structure NoteMarks where
  slur : Option Slur
  tied : Option Tied
deriving DecidableEq

/-- `NoteSchema`.  The field `marks` models the source field `notations`, and
`tie` models the `note.tie` property read by `prepareNotesForAudio`. -/
structure Note where
  pitch : Option NotePitch
  isChord : Option Bool
  duration : ℚ
  voice : ℚ
  type : String
  staff : Option ℚ
  tie : Option String
  marks : Option NoteMarks
deriving DecidableEq

/-- `TimeAttributeSchema`. -/
structure TimeAttribute where
  beats : ℚ
  beatType : ℚ
deriving DecidableEq

/-- `MeasureAttributesSchema` (key/clef data is not read by the playback core). -/
structure MeasureAttributes where
  divisions : ℚ
  staves : Option ℚ
  time : TimeAttribute
deriving DecidableEq

/-- `MeasureSchema` (the `number` label is not read by the playback core). -/
structure Measure where
  attributes : Option MeasureAttributes
  notes : List Note
deriving DecidableEq

/-- `PartSchema` (the `id` is not read by the playback core). -/
structure Part where
  measures : List Measure
deriving DecidableEq

/-! ## Timeline derivation (`src/utils/audio-helpers.ts`) -/

/-- Entry of the intermediate `allNotes` array built by the first pass of
`prepareNotesForAudio`. -/
structure PosNote where
  note : Note
  beat : ℚ
  staff : ℚ
  measureIndex : ℕ
deriving DecidableEq

/-- The emitted `AudioNote` record (`{ note: {pitch, duration, type}, beat,
slurStart, slurStop }`). -/
structure AudioNote where
  pitch : Option NotePitch
  duration : ℚ
  type : String
  beat : ℚ
  slurStart : Bool
  slurStop : Bool
deriving DecidableEq

/-- `areNotesEquivalent(note1, note2, staff1, staff2)`: same pitch (step,
octave, `alter || 0`), same staff, same voice; `false` when either note has no
pitch. -/
def areNotesEquivalent (note1 note2 : Note) (staff1 staff2 : ℚ) : Bool :=
  match note1.pitch, note2.pitch with
  | some p1, some p2 =>
      decide (p1.step = p2.step) && decide (p1.octave = p2.octave) &&
      decide (optOr p1.alter 0 = optOr p2.alter 0) &&
      decide (staff1 = staff2) && decide (note1.voice = note2.voice)
  | _, _ => false

/-- `note.tie === 'start' || note.notations?.tied?.type === 'start'`. -/
def hasTieStart (n : Note) : Bool :=
  decide (n.tie = some "start") ||
    (match n.marks with
     | some m =>
         match m.tied with
         | some t => decide (t.type = "start")
         | none => false
     | none => false)

/-- `note.tie === 'stop' || note.notations?.tied?.type === 'stop'`. -/
def hasTieStop (n : Note) : Bool :=
  decide (n.tie = some "stop") ||
    (match n.marks with
     | some m =>
         match m.tied with
         | some t => decide (t.type = "stop")
         | none => false
     | none => false)

/-- `note.notations?.slur?.type === 'start'`. -/
def slurStartOf (n : Note) : Bool :=
  match n.marks with
  | some m =>
      match m.slur with
      | some s => decide (s.type = "start")
      | none => false
  | none => false

/-- `note.notations?.slur?.type === 'stop'`. -/
def slurStopOf (n : Note) : Bool :=
  match n.marks with
  | some m =>
      match m.slur with
      | some s => decide (s.type = "stop")
      | none => false
  | none => false

/-- `const staff = note.staff || 1` (absent or `0` falls back to `1`). -/
def staffOf (n : Note) : ℚ := optOr n.staff 1

/-- `note.isChord` truthiness. -/
def isChordT (n : Note) : Bool := n.isChord = some true

/-- `measure.attributes?.time.beats || 4`. -/
def declaredBeats (m : Measure) : ℚ :=
  match m.attributes with
  | none => 4
  | some a => qOr a.time.beats 4

/-- First-pass per-measure mutable state: `currentBeats` (a map defaulting to
`0`, matching `currentBeats.get(staff) || 0`) and `lastNotes`. -/
structure P1State where
  currentBeats : ℚ → ℚ
  lastNotes : ℚ → Option Note

/-- One iteration of the first-pass `measure.notes.forEach` body. -/
def procNote (st : P1State) (mStart : ℚ) (mIdx : ℕ) (n : Note) : P1State × PosNote :=
  let staff := staffOf n
  let beat := st.currentBeats staff
  let lastNote := st.lastNotes staff
  let ln' : ℚ → Option Note := fun s => if s = staff then some n else st.lastNotes s
  let currentBeat :=
    match lastNote with
    | none => if beat = 0 then 1 else beat
    | some ln =>
        if isChordT n then (if beat = 0 then 1 else beat)
        else (if beat = 0 then 1 else beat + qOr ln.duration 1)
  let cb' : ℚ → ℚ := fun s => if s = staff then currentBeat else st.currentBeats s
  (⟨cb', ln'⟩, ⟨n, currentBeat + mStart - 1, staff, mIdx⟩)

/-- Folding `procNote` over the notes of one measure. -/
def runNotes (st : P1State) (mStart : ℚ) (mIdx : ℕ) : List Note → List PosNote × P1State
  | [] => ([], st)
  | n :: rest =>
      let pr := procNote st mStart mIdx n
      let tl := runNotes pr.1 mStart mIdx rest
      (pr.2 :: tl.1, tl.2)

/-- The first-pass walk over measures: emits positioned notes and accumulates
`totalBeatsSoFar` (seeded at `1`).  The per-measure maps are reset for every
measure, exactly as in the source (the `staves`-seeded map is equivalent to the
empty map because lookups go through `currentBeats.get(staff) || 0`). -/
def goMeasures : ℚ → ℕ → List Measure → List PosNote × ℚ
  | total, _, [] => ([], total)
  | total, idx, m :: rest =>
      let beats := declaredBeats m
      let pr := runNotes ⟨fun _ => 0, fun _ => none⟩ total idx m.notes
      let tl := goMeasures (total + beats) (idx + 1) rest
      (pr.1 ++ tl.1, tl.2)

/-- The `allNotes` list of `prepareNotesForAudio` (first pass). -/
def firstPass (part : Part) : List PosNote := (goMeasures 1 0 part.measures).1

/-- The final value of the `totalBeatsSoFar` accumulator. -/
def totalBeatsAccum (part : Part) : ℚ := (goMeasures 1 0 part.measures).2

/-- The inner `for (let j = i + 1; ...)` search of the second pass: fold tied
continuation durations into `dur`, recording consumed indices in `skip`.  The
search continues past non-equivalent notes and past equivalent notes without a
tie stop, and breaks after a tie stop that carries no further tie start. -/
def tieSearch (cur : PosNote) (dur : ℚ) (skip : List ℕ) :
    List (ℕ × PosNote) → ℚ × List ℕ
  | [] => (dur, skip)
  | (j, nx) :: tl =>
      match nx.note.pitch with
      | none => tieSearch cur dur skip tl
      | some _ =>
          if areNotesEquivalent cur.note nx.note cur.staff nx.staff then
            if hasTieStop nx.note then
              let dur' := dur + nx.note.duration
              let skip' := j :: skip
              if hasTieStart nx.note then tieSearch cur dur' skip' tl
              else (dur', skip')
            else tieSearch cur dur skip tl
          else tieSearch cur dur skip tl

/-- The outer `for (let i = 0; ...)` loop of the second pass over the indexed
`allNotes` list, threading the `skipIndices` set. -/
def tiePass : List (ℕ × PosNote) → List ℕ → List AudioNote
  | [], _ => []
  | (i, cur) :: tl, skip =>
      if i ∈ skip then tiePass tl skip
      else
        match cur.note.pitch with
        | none => tiePass tl skip
        | some _ =>
            let pr :=
              if hasTieStart cur.note then tieSearch cur cur.note.duration skip tl
              else (cur.note.duration, skip)
            { pitch := cur.note.pitch
              duration := pr.1
              type := cur.note.type
              beat := cur.beat
              slurStart := slurStartOf cur.note
              slurStop := slurStopOf cur.note } :: tiePass tl pr.2

/-- `prepareNotesForAudio(part)`: first pass, then tie/slur processing.
(The source dereferences `part.measures[0]` to read a `staves` count; that
count only seeds map entries that default to `0` anyway, so it does not affect
the result and is not modelled.) -/
def prepareNotesForAudio (part : Part) : List AudioNote :=
  tiePass (firstPass part).enum []

/-! ## Audio engine (`src/utils/audio-engine.ts`) -/

/-- `stepToSemitone`, the `Record<string, number>` lookup inside
`noteToFrequency`. -/
def stepToSemitone (s : String) : Option ℚ :=
  List.lookup s [("C", 0), ("D", 2), ("E", 4), ("F", 5), ("G", 7), ("A", 9), ("B", 11)]

/-- Integer part of `noteToFrequency`: `(octave - 4) * 12 + (semitone - 9) + alter`
when the step is recognized after upper-casing; `none` models the
`console.warn` + default-440 path. -/
def semitonesFromA4 (step : String) (octave alter : ℚ) : Option ℚ :=
  match stepToSemitone step.toUpper with
  | none => none
  | some semitone => some ((octave - 4) * 12 + (semitone - 9) + alter)

/-- `noteToFrequency(step, octave, alter = 0)`: `440 * 2 ^ (semitonesFromA4 / 12)`
with `440` for an unrecognized step.  (`Math.pow` is modelled exactly over `ℝ`.) -/
noncomputable def noteToFrequency (step : String) (octave alter : ℚ) : ℝ :=
  match semitonesFromA4 step octave alter with
  | none => 440
  | some n => 440 * Real.rpow 2 ((n : ℝ) / 12)

/-- Timing record for one scheduled sound (`PianoAudioPlayer.playNote` start
time and duration; the oscillator/envelope graph is not part of the timing
model). -/
structure SchedEvent where
  pitch : NotePitch
  startTime : ℚ
  duration : ℚ
deriving DecidableEq

/-- `PianoAudioPlayer` state: `audioContext !== null`, `isInitialized`, and the
`scheduledNotes` bookkeeping (kept as the list of scheduled events). -/
structure PAState where
  hasCtx : Bool
  isInit : Bool
  sched : List SchedEvent
deriving DecidableEq

/-- `getCurrentTime()`: the audio-clock reading, or `null` before
initialization. -/
def getTime (pa : PAState) (t : ℚ) : Option ℚ :=
  if pa.hasCtx = true ∧ pa.isInit = true then some t else none

/-- `initialize(delay)`: constructing the `AudioContext` either succeeds
(`env = true`) or throws; the `catch` logs the error and leaves the state
uninitialized.  The promise never rejects. -/
def paInit (pa : PAState) (env : Bool) : PAState :=
  if pa.isInit then pa
  else if env then { pa with hasCtx := true, isInit := true }
  else pa

/-- `scheduleNotes(notes, beatsPerMinute, divisions, startBeat)`: schedules
every pitched note whose beat is `≥ startBeat` at
`now + (beat - startBeat) * (60 / bpm)` (with `playNote` clamping the start to
`now`), for `duration * (60 / bpm) / divisions` seconds.  NOTE: the source's
doc comment advertises a `delayMs` parameter, but the signature does not
declare it, so callers passing a fifth argument have it silently ignored. -/
def scheduleNotes (pa : PAState) (notes : List AudioNote)
    (beatsPerMinute divisions startBeat now : ℚ) : PAState :=
  if ¬(pa.hasCtx = true ∧ pa.isInit = true) then pa
  else
    let secondsPerBeat := 60 / beatsPerMinute
    let secondsPerDivision := secondsPerBeat / divisions
    { pa with
      sched := pa.sched ++ notes.filterMap (fun n =>
        if n.beat < startBeat then none
        else
          match n.pitch with
          | none => none
          | some p =>
              let startTime := now + (n.beat - startBeat) * secondsPerBeat
              some { pitch := p
                     startTime := max now startTime
                     duration := n.duration * secondsPerDivision }) }

/-- `stopAll()`: fades out and clears every scheduled note (no-op without an
audio context). -/
def stopAll (pa : PAState) : PAState :=
  if pa.hasCtx then { pa with sched := [] } else pa

/-! ## Playback engine (`src/utils/partiture-player.ts`) -/

/-- Per-host state (`HostContext`); DOM handles, observers and animation-frame
bookkeeping are omitted, measured geometry is kept as rationals. -/
structure Host where
  totalBeats : ℚ
  spacing : ℚ
  progress : ℚ
  lastProgress : ℚ
  playheadX : ℚ
  maxScroll : ℚ
  initialScroll : ℚ
  scrollLeft : ℚ
  playing : Bool
  playStartBeat : ℚ
  playStartTime : ℚ
  scrubbing : Bool
  resumeAfterScrub : Bool
  scrubStartX : ℚ
  scrubStartBeat : ℚ
  hasLooped : Bool
  ignoreScroll : Bool
  reduced : Bool
deriving DecidableEq

/-- `PlayerState` plus the private `PartiturePlayer` fields that the playback
operations read (`audioInitialized` is modelled as `audioInitDone`,
`notesForAudio`, `divisions`, the `playStartDelayMs` config value, the shared
`PianoAudioPlayer`, and the `document.body` "playing" class). -/
structure PState where
  tempo : ℚ
  msPerBeat : ℚ
  hosts : List Host
  playing : Bool
  audioScheduled : Bool
  audioStartTime : Option ℚ
  audioStartBeat : ℚ
  audioInitDone : Bool
  pa : PAState
  notesForAudio : List AudioNote
  divisions : ℚ
  playDelayMs : ℚ
  bodyPlaying : Bool
deriving DecidableEq

/-- `syncScroll` + `setScroll`: reposition scroll to the beat-proportional
offset from the initial anchor, clamped to `[0, maxScroll]`, skipping moves
below half a pixel and flagging the self-inflicted scroll event. -/
def syncScroll (ctx : Host) : Host :=
  let spacing := if ctx.spacing > 0 then ctx.spacing else 0
  let target := if spacing = 0 then ctx.initialScroll
                else ctx.initialScroll + ctx.progress * spacing
  let clamped := clamp target 0 ctx.maxScroll
  if |ctx.scrollLeft - clamped| < 1 / 2 then ctx
  else { ctx with scrollLeft := clamped, ignoreScroll := true }

/-- `setBeat(beat, {sync = true, source = "set"})`. -/
def setBeat (ctx : Host) (beat : ℚ) (sync : Bool) (source : String) (nowPerf : ℚ) : Host :=
  let clamped := clamp beat 0 (qOr ctx.totalBeats 0)
  let c1 := { ctx with lastProgress := ctx.progress, progress := clamped }
  let c2 := if sync then syncScroll c1 else c1
  if source ≠ "tick" ∧ c2.playing = true ∧ c2.reduced = false then
    { c2 with playStartBeat := clamped, playStartTime := nowPerf }
  else c2

/-- `handleSeek(detail)` payload: a numeric `beat`, `progress` or `deltaBeat`
field, or none of them. -/
inductive SeekDetail where
  | beat (b : ℚ)
  | fraction (p : ℚ)
  | deltaBeat (d : ℚ)
  | empty
deriving DecidableEq

/-- Per-host `handleSeek` (the `progress` variant is named `fraction` here). -/
def handleSeekHost (ctx : Host) (d : SeekDetail) (nowPerf : ℚ) : Host :=
  match d with
  | .beat b => setBeat ctx b true "set" nowPerf
  | .fraction p => setBeat ctx (p * ctx.totalBeats) true "set" nowPerf
  | .deltaBeat dd => setBeat ctx (ctx.progress + dd) true "set" nowPerf
  | .empty => ctx

/-- `handleScroll` (the `scroll` listener). -/
def onScroll (ctx : Host) (nowPerf : ℚ) : Host :=
  if ctx.ignoreScroll = true ∨ ctx.spacing ≤ 0 then ctx
  else setBeat ctx ((ctx.scrollLeft - ctx.initialScroll) / ctx.spacing) false "scroll" nowPerf

/-- `onPointerMove` while scrubbing: map drag distance through spacing into a
beat delta from the scrub anchor (`ctx.spacing ? deltaPx / ctx.spacing : 0`). -/
def onPointerMove (ctx : Host) (clientX nowPerf : ℚ) : Host :=
  if ctx.scrubbing = false then ctx
  else
    let deltaPx := clientX - ctx.scrubStartX
    let beatsDelta := if ctx.spacing = 0 then 0 else deltaPx / ctx.spacing
    setBeat ctx (ctx.scrubStartBeat - beatsDelta) true "set" nowPerf

/-- `onWheel` with shift held and positive spacing. -/
def onWheel (ctx : Host) (shiftKey : Bool) (deltaY nowPerf : ℚ) : Host :=
  if shiftKey = false ∨ ctx.spacing ≤ 0 then ctx
  else setBeat ctx (ctx.progress + deltaY / ctx.spacing) true "set" nowPerf

/-- Per-host `play()`: flag playing, clear the loop latch, and (for
non-reduced hosts) anchor the fallback clock, delaying by `playStartDelayMs`
when starting from beat `≤ 0`.  (`startInterval` for reduced hosts is a DOM
timer and is not part of the timing model.) -/
def hostPlay (ctx : Host) (delayMs nowPerf : ℚ) : Host :=
  if ctx.playing then ctx
  else
    let c := { ctx with playing := true, hasLooped := false }
    if c.reduced then c
    else
      { c with playStartBeat := c.progress
               playStartTime := nowPerf + (if c.progress ≤ 0 then delayMs else 0) }

/-- Per-host `pause()`. -/
def hostPause (ctx : Host) : Host :=
  if ctx.playing then { ctx with playing := false } else ctx

/-- Per-host `onTempoChange`: for a playing non-reduced host, re-anchor the
fallback clock at the current beat and now (reduced hosts restart their
interval timer, which leaves this state unchanged). -/
def onTempoChangeHost (ctx : Host) (nowPerf : ℚ) : Host :=
  if ctx.reduced then ctx
  else if ctx.playing then { ctx with playStartBeat := ctx.progress, playStartTime := nowPerf }
  else ctx

/-- `this.state.hosts[0]?.progress || 0`. -/
def hostsCurrentBeat (hosts : List Host) : ℚ :=
  match hosts with
  | [] => 0
  | h :: _ => qOr h.progress 0

/-- `PartiturePlayer.scheduleAudio(fromBeat, delayMs)`: stop current audio,
read the audio clock, schedule from `fromBeat`, and return
`audioTime + delayMs / 1000`.  The `delayMs` argument is forwarded to
`scheduleNotes` as a fifth argument that its signature does not declare, so the
events themselves are scheduled with zero delay. -/
def psScheduleAudio (s : PState) (fromBeat delayMs audioTime : ℚ) : PState × Option ℚ :=
  if s.audioInitDone = false then (s, none)
  else
    let pa1 := stopAll s.pa
    match getTime pa1 audioTime with
    | none => ({ s with pa := pa1 }, none)
    | some t =>
        let pa2 := scheduleNotes pa1 s.notesForAudio s.tempo s.divisions fromBeat t
        ({ s with pa := pa2, audioScheduled := true }, some (t + delayMs / 1000))

/-- `PartiturePlayer.stopAudio()`. -/
def psStopAudio (s : PState) : PState :=
  if s.audioInitDone = false then s
  else { s with pa := stopAll s.pa, audioScheduled := false, audioStartTime := none }

/-- `ensureAudioInitialized()`: because `PianoAudioPlayer.initialize` catches
every error internally and its promise never rejects, the `catch` branch that
would return `false` is unreachable; the flag is set and `true` is returned
even when the environment refused the audio context. -/
def ensureAudioInit (s : PState) (env : Bool) : PState × Bool :=
  if s.audioInitDone then (s, true)
  else ({ s with pa := paInit s.pa env, audioInitDone := true }, true)

/-- `setPlaying(shouldPlay)` (the asynchronous initialization is modelled as a
completed step; `env` says whether constructing an `AudioContext` succeeds). -/
def setPlaying (s : PState) (shouldPlay : Bool) (env : Bool) (audioTime nowPerf : ℚ) : PState :=
  let play := shouldPlay
  if s.playing = play then
    { s with hosts := s.hosts.map (fun h =>
        if play then hostPlay h s.playDelayMs nowPerf else hostPause h) }
  else
    let s1 := { s with playing := play, bodyPlaying := play }
    if play then
      let pr := ensureAudioInit s1 env
      let s2 := pr.1
      let s3 :=
        if pr.2 = true ∧ s2.hosts ≠ [] then
          let currentBeat := hostsCurrentBeat s2.hosts
          let delay := if currentBeat ≤ 0 then s2.playDelayMs else 0
          let sr := psScheduleAudio s2 currentBeat delay audioTime
          match sr.2 with
          | some ref => { sr.1 with audioStartTime := some ref, audioStartBeat := currentBeat }
          | none => sr.1
        else s2
      { s3 with hosts := s3.hosts.map (fun h => hostPlay h s3.playDelayMs nowPerf) }
    else
      let s2 := psStopAudio s1
      { s2 with hosts := s2.hosts.map hostPause }

/-- `handleTempoChange(newTempo)`: reject non-finite, non-positive or unchanged
tempos; otherwise recompute `msPerBeat`, re-anchor every host, and, if playing
with at least one host, reschedule audio from the first host's beat with zero
delay. -/
def handleTempoChange (s : PState) (newTempo : ℚ) (audioTime nowPerf : ℚ) : PState :=
  if ¬(0 < newTempo) then s
  else if newTempo = s.tempo then s
  else
    let s1 := { s with tempo := newTempo, msPerBeat := 60 / newTempo * 1000 }
    let s2 := { s1 with hosts := s1.hosts.map (fun h => onTempoChangeHost h nowPerf) }
    if s2.playing = true ∧ s2.hosts ≠ [] then
      let currentBeat := hostsCurrentBeat s2.hosts
      let pr := psScheduleAudio s2 currentBeat 0 audioTime
      match pr.2 with
      | some ref => { pr.1 with audioStartTime := some ref, audioStartBeat := currentBeat }
      | none => pr.1
    else s2

/-- `PartiturePlayer.handleSeek(detail)`: forward to every host, then, if
playing with at least one host, reschedule audio from the first host's beat
with zero delay. -/
def psHandleSeek (s : PState) (d : SeekDetail) (audioTime nowPerf : ℚ) : PState :=
  let s1 := { s with hosts := s.hosts.map (fun h => handleSeekHost h d nowPerf) }
  if s1.playing = true ∧ s1.hosts ≠ [] then
    let currentBeat := hostsCurrentBeat s1.hosts
    let pr := psScheduleAudio s1 currentBeat 0 audioTime
    match pr.2 with
    | some ref => { pr.1 with audioStartTime := some ref, audioStartBeat := currentBeat }
    | none => pr.1
  else s1

/-- Intermediate result of the loop-handling block inside `tick`. -/
structure TickMid where
  st : PState
  ctx : Host
  beat : ℚ
  resched : Bool

/-- The reschedule-on-loop block: `scheduleAudio(0, 0)` and, on success, rebase
the anchor to `(now, 0)`. -/
def tickCross (s : PState) (ctx : Host) (beat audioTime : ℚ) : TickMid :=
  if s.playing then
    let pr := psScheduleAudio s 0 0 audioTime
    match pr.2 with
    | some ref => ⟨{ pr.1 with audioStartTime := some ref, audioStartBeat := 0 }, ctx, beat, true⟩
    | none => ⟨pr.1, ctx, beat, true⟩
  else ⟨s, ctx, beat, false⟩

/-- The final range-normalization of `tick`'s audio branch: `beat %= totalBeats`
when `≥ totalBeats`, then `beat += totalBeats` when `< 0`. -/
def tfBeat (beat tb : ℚ) : ℚ :=
  let b2 := if tb ≤ beat then jsMod beat tb else beat
  if b2 < 0 then b2 + tb else b2

/-- Range-normalize the derived beat and store it via `setBeat(..., "tick")`. -/
def tickFinish (mid : TickMid) (tb nowPerf : ℚ) : PState × Host × Bool :=
  (mid.st, setBeat mid.ctx (tfBeat mid.beat tb) true "tick" nowPerf, mid.resched)

/-- The audio-clock branch of `tick`: derive the beat from the audio clock,
handle loop wraparound, and store it via `setBeat(..., source: "tick")`. -/
def tickAudio (s : PState) (ctx : Host) (ast t audioTime nowPerf : ℚ) :
    PState × Host × Bool :=
  let beat0 := s.audioStartBeat + (t - ast) * 1000 / s.msPerBeat
  if 0 < ctx.totalBeats then
    tickFinish
      (if ctx.totalBeats ≤ beat0 ∧ ctx.hasLooped = false then
        tickCross s { ctx with hasLooped := true } (jsMod beat0 ctx.totalBeats) audioTime
      else if beat0 < ctx.totalBeats ∧ ctx.hasLooped = true then
        ⟨s, { ctx with hasLooped := false }, beat0, false⟩
      else ⟨s, ctx, beat0, false⟩)
      ctx.totalBeats nowPerf
  else (s, setBeat ctx beat0 true "tick" nowPerf, false)

/-- The `performance.now()` fallback branch of `tick`. -/
def tickFallback (s : PState) (ctx : Host) (nowPerf : ℚ) : PState × Host × Bool :=
  let c0 := if ctx.playStartTime = 0 then
              { ctx with playStartTime := nowPerf, playStartBeat := ctx.progress }
            else ctx
  if nowPerf < c0.playStartTime then
    (s, setBeat c0 c0.playStartBeat true "tick" nowPerf, false)
  else
    let beat := c0.playStartBeat + (nowPerf - c0.playStartTime) / s.msPerBeat
    let b := if 0 < c0.totalBeats then
               (let m := jsMod beat c0.totalBeats
                if m < 0 then m + c0.totalBeats else m)
             else beat
    (s, setBeat c0 b true "tick" nowPerf, false)

/-- Per-frame `tick(now)`; the returned `Bool` records whether the loop-crossing
audio reschedule (`scheduleAudio(0, 0)`) was performed during this tick. -/
def tick (s : PState) (ctx : Host) (audioTime nowPerf : ℚ) : PState × Host × Bool :=
  if ctx.playing = false ∨ ctx.reduced = true ∨ ctx.scrubbing = true then (s, ctx, false)
  else if ¬(0 < s.msPerBeat) then (s, ctx, false)
  else
    match (if s.audioInitDone then s.audioStartTime else none), getTime s.pa audioTime with
    | some ast, some t => tickAudio s ctx ast t audioTime nowPerf
    | some _, none => tickFallback s ctx nowPerf
    | none, _ => tickFallback s ctx nowPerf

/-- The beat value implied by the engine clock anchor at audio-clock time `t`
(the computation at the head of `tick`'s audio branch). -/
def currentBeatAt (s : PState) (t : ℚ) : Option ℚ :=
  match s.audioStartTime with
  | none => none
  | some ast => some (s.audioStartBeat + (t - ast) * 1000 / s.msPerBeat)

/-! ## Engine total beats (`createHost`) -/

/-- Sum of the measures' declared beat counts. -/
def sumDeclaredBeats (ms : List Measure) : ℚ := (ms.map declaredBeats).sum

/-- Modelled from the spec: the component that renders the `.staff-grid`
markup is not under `src/`; per the spec, the grid renders one `.beat` element
per declared beat, so `grid.querySelectorAll(".beat").length` equals the sum of
each measure's declared beat count. -/
def renderedBeatCount (part : Part) : ℚ := sumDeclaredBeats part.measures

/-- `createHost`: `totalBeats: beats.length || this.config.totalBeatsHint`. -/
def engineTotalBeats (part : Part) (totalBeatsHint : ℚ) : ℚ :=
  qOr (renderedBeatCount part) totalBeatsHint

/-! ## Theorems -/

/-- The claim's semitone table, written from the spec's words: C, D, E, F, G,
A, B map to 0, 2, 4, 5, 7, 9, 11. -/
def specStepSemitone (s : String) : Option ℚ :=
  if s = "C" then some 0
  else if s = "D" then some 2
  else if s = "E" then some 4
  else if s = "F" then some 5
  else if s = "G" then some 7
  else if s = "A" then some 9
  else if s = "B" then some 11
  else none

theorem stepToSemitone_eq_spec : stepToSemitone = specStepSemitone := by
  funext s
  simp only [stepToSemitone, specStepSemitone, List.lookup]
  repeat' split
  all_goals simp_all [beq_iff_eq]

/-- C10: `noteToFrequency` is total (never throws): any step whose uppercase
form is not one of C, D, E, F, G, A, B yields exactly 440 (A4); a recognized
step yields `440 * 2 ^ (((octave - 4) * 12 + (semitone(step) - 9) + alter) / 12)`
where semitone maps C, D, E, F, G, A, B to 0, 2, 4, 5, 7, 9, 11. -/
theorem noteToFrequency_total_spec (step : String) (octave alter : ℚ) :
    noteToFrequency step octave alter =
      match specStepSemitone step.toUpper with
      | none => (440 : ℝ)
      | some sem =>
          440 * Real.rpow 2 ((((octave - 4) * 12 + (sem - 9) + alter : ℚ) : ℝ) / 12) := by
  unfold noteToFrequency semitonesFromA4
  rw [stepToSemitone_eq_spec]
  cases h : specStepSemitone step.toUpper <;> simp [h]

theorem goMeasures_total (ms : List Measure) :
    ∀ total idx, (goMeasures total idx ms).2 = total + sumDeclaredBeats ms := by
  induction ms with
  | nil => intro total idx; simp [goMeasures, sumDeclaredBeats]
  | cons m rest ih =>
      intro total idx
      simp only [goMeasures, ih, sumDeclaredBeats, List.map_cons, List.sum_cons]
      ring

theorem declaredBeats_of_attr (m m' : Measure) (h : m.attributes = m'.attributes) :
    declaredBeats m = declaredBeats m' := by
  unfold declaredBeats
  rw [h]

theorem sumDeclaredBeats_of_attr (ms ms' : List Measure)
    (h : ms.map Measure.attributes = ms'.map Measure.attributes) :
    sumDeclaredBeats ms = sumDeclaredBeats ms' := by
  induction ms generalizing ms' with
  | nil =>
      cases ms' with
      | nil => rfl
      | cons _ _ => simp at h
  | cons m rest ih =>
      cases ms' with
      | nil => simp at h
      | cons m' rest' =>
          simp only [List.map_cons, List.cons.injEq] at h
          simp only [sumDeclaredBeats, List.map_cons, List.sum_cons] at ih ⊢
          rw [declaredBeats_of_attr m m' h.1, ih rest' h.2]

/-- C1: with the spec-modelled renderer (one `.beat` element per declared
beat), the host `totalBeats` used by the engine equals the sum of each
measure's declared beat count (4 when missing); the timeline deriver's
`totalBeatsSoFar` accumulator finishes at `1 + ` that sum; and the value is
independent of the measures' note content. -/
theorem engineTotalBeats_eq_sum (part part' : Part) (hint : ℚ)
    (hne : part.measures ≠ [])
    (hpos : ∀ m ∈ part.measures, 0 < declaredBeats m) :
    engineTotalBeats part hint = sumDeclaredBeats part.measures ∧
    totalBeatsAccum part = 1 + sumDeclaredBeats part.measures ∧
    (part'.measures.map Measure.attributes = part.measures.map Measure.attributes →
      engineTotalBeats part' hint = engineTotalBeats part hint) := by
  have hsum : 0 < sumDeclaredBeats part.measures := by
    unfold sumDeclaredBeats
    apply List.sum_pos
    · intro x hx
      obtain ⟨m, hm, rfl⟩ := List.mem_map.mp hx
      exact hpos m hm
    · simpa using hne
  refine ⟨?_, ?_, ?_⟩
  · unfold engineTotalBeats renderedBeatCount qOr
    rw [if_neg (ne_of_gt hsum)]
  · unfold totalBeatsAccum
    rw [goMeasures_total]
  · intro hattr
    unfold engineTotalBeats renderedBeatCount
    rw [sumDeclaredBeats_of_attr part'.measures part.measures hattr]

/-- Concrete part used by the `C1` witness: two measures (4 declared beats and
3 declared beats), assorted note content. -/
def witPart : Part :=
  ⟨[⟨some ⟨1, none, ⟨4, 4⟩⟩, [⟨some ⟨"C", 4, none⟩, none, 1, 1, "quarter", none, none, none⟩]⟩,
    ⟨some ⟨1, none, ⟨3, 4⟩⟩, []⟩]⟩

/-- Same measure attributes as `witPart`, different note content. -/
def witPart' : Part :=
  ⟨[⟨some ⟨1, none, ⟨4, 4⟩⟩, []⟩,
    ⟨some ⟨1, none, ⟨3, 4⟩⟩, [⟨none, none, 2, 1, "half", none, none, none⟩]⟩]⟩

/-- One pitched event at beat 0 (used for the C3 failing input). -/
def demoNote : AudioNote := ⟨some ⟨"C", 4, none⟩, 1, "quarter", 0, false, false⟩

/-- Player state for the C3 failing input: tempo 60, divisions 1, audio
initialized and the context ready, one beat-0 note to schedule. -/
def demoPS : PState :=
  { tempo := 60, msPerBeat := 1000, hosts := [], playing := true
    audioScheduled := false, audioStartTime := none, audioStartBeat := 0
    audioInitDone := true, pa := ⟨true, true, []⟩
    notesForAudio := [demoNote], divisions := 1, playDelayMs := 1000
    bodyPlaying := true }

/-- C3: at the failing input (`scheduleAudio(0, 1000)` with the audio clock at
10 s, tempo 60), the returned reference instant is `11 = 10 + delay`, but the
beat-0 event is scheduled at `10` — the requested start delay is dropped
because `scheduleAudio` forwards `delayMs` as a fifth argument that
`scheduleNotes`' signature does not declare, so the event does not lie at its
beat offset plus the start delay after the returned reference instant. -/
theorem scheduleAudio_drops_delay :
    (psScheduleAudio demoPS 0 1000 10).2 = some 11 ∧
    ((psScheduleAudio demoPS 0 1000 10).1.pa.sched.map SchedEvent.startTime) = [10] ∧
    (10 : ℚ) ≠ 0 + (11 : ℚ) := by
  refine ⟨?_, ?_, by norm_num⟩ <;>
    simp [psScheduleAudio, demoPS, demoNote, stopAll, getTime, scheduleNotes] <;>
    norm_num

/-- Idle host used by the C4 fixtures. -/
def idleHost : Host :=
  { totalBeats := 8, spacing := 10, progress := 0, lastProgress := 0
    playheadX := 0, maxScroll := 100, initialScroll := 0, scrollLeft := 0
    playing := false, playStartBeat := 0, playStartTime := 0
    scrubbing := false, resumeAfterScrub := false, scrubStartX := 0
    scrubStartBeat := 0, hasLooped := false, ignoreScroll := false
    reduced := false }

/-- Stopped player with audio never initialized (C4 fixtures). -/
def idlePS : PState :=
  { tempo := 120, msPerBeat := 500, hosts := [idleHost], playing := false
    audioScheduled := false, audioStartTime := none, audioStartBeat := 0
    audioInitDone := false, pa := ⟨false, false, []⟩
    notesForAudio := [demoNote], divisions := 1, playDelayMs := 1000
    bodyPlaying := false }

/-- C4 counterexample: with the environment refusing the audio context
(`env = false`), the initialization step still reports success (`true`), and
`play()` enters the "playing" visual state and starts the host anyway — the
claim's "boolean failure" and "does not enter the playing state / does not
start the hosts" are both false on the code. -/
theorem setPlaying_failedInit_counterexample :
    (ensureAudioInit idlePS false).2 = true ∧
    (setPlaying idlePS true false 0 0).playing = true ∧
    (setPlaying idlePS true false 0 0).bodyPlaying = true ∧
    ((setPlaying idlePS true false 0 0).hosts.map Host.playing) = [true] := by
  decide

theorem hostPlay_playing (h : Host) (d n : ℚ) : (hostPlay h d n).playing = true := by
  simp only [hostPlay]
  split
  · assumption
  · split <;> rfl

/-- C4 (amended): when audio initialization fails, `initialize` catches and
logs the error (never throws) and leaves the audio player uninitialized, but
`ensureAudioInitialized` nevertheless reports success (`true`); `play()`
enters the playing state and starts every host regardless, and playback
degrades to visual-only: no audio is scheduled and no audio-clock anchor is
set. -/
theorem setPlaying_failedInit (s : PState) (audioTime nowPerf : ℚ)
    (hplay : s.playing = false) (hinit : s.audioInitDone = false)
    (hpa : s.pa.isInit = false) (hctx : s.pa.hasCtx = false)
    (hast : s.audioStartTime = none) :
    (ensureAudioInit s false).2 = true ∧
    (paInit s.pa false).isInit = false ∧
    (setPlaying s true false audioTime nowPerf).playing = true ∧
    (setPlaying s true false audioTime nowPerf).bodyPlaying = true ∧
    (setPlaying s true false audioTime nowPerf).hosts.all Host.playing = true ∧
    (setPlaying s true false audioTime nowPerf).audioStartTime = none ∧
    (setPlaying s true false audioTime nowPerf).pa.isInit = false ∧
    (setPlaying s true false audioTime nowPerf).pa.sched = s.pa.sched := by
  refine ⟨?_, ?_, ?_, ?_, ?_, ?_, ?_, ?_⟩ <;>
    by_cases hh : s.hosts = [] <;>
      simp [setPlaying, ensureAudioInit, paInit, psScheduleAudio, stopAll, getTime,
        hplay, hinit, hpa, hctx, hast, hh, hostPlay_playing]

theorem setPlaying_failedInit_witness :
    (ensureAudioInit idlePS false).2 = true ∧
    (paInit idlePS.pa false).isInit = false ∧
    (setPlaying idlePS true false 3 7).playing = true ∧
    (setPlaying idlePS true false 3 7).bodyPlaying = true ∧
    (setPlaying idlePS true false 3 7).hosts.all Host.playing = true ∧
    (setPlaying idlePS true false 3 7).audioStartTime = none ∧
    (setPlaying idlePS true false 3 7).pa.isInit = false ∧
    (setPlaying idlePS true false 3 7).pa.sched = idlePS.pa.sched :=
  setPlaying_failedInit idlePS 3 7 (by decide) (by decide) (by decide) (by decide) (by decide)

theorem engineTotalBeats_eq_sum_witness :
    engineTotalBeats witPart 5 = sumDeclaredBeats witPart.measures ∧
    totalBeatsAccum witPart = 1 + sumDeclaredBeats witPart.measures ∧
    (witPart'.measures.map Measure.attributes = witPart.measures.map Measure.attributes →
      engineTotalBeats witPart' 5 = engineTotalBeats witPart 5) :=
  engineTotalBeats_eq_sum witPart witPart' 5 (by decide) (by decide)

theorem syncScroll_progress (c : Host) : (syncScroll c).progress = c.progress := by
  simp only [syncScroll]
  repeat' split
  all_goals rfl

theorem syncScroll_totalBeats (c : Host) : (syncScroll c).totalBeats = c.totalBeats := by
  simp only [syncScroll]
  repeat' split
  all_goals rfl

theorem syncScroll_hasLooped (c : Host) : (syncScroll c).hasLooped = c.hasLooped := by
  simp only [syncScroll]
  repeat' split
  all_goals rfl

theorem setBeat_progress (c : Host) (beat : ℚ) (sync : Bool) (src : String) (nowPerf : ℚ) :
    (setBeat c beat sync src nowPerf).progress = clamp beat 0 (qOr c.totalBeats 0) := by
  simp only [setBeat]
  repeat' split
  all_goals simp [syncScroll_progress]

theorem setBeat_totalBeats (c : Host) (beat : ℚ) (sync : Bool) (src : String) (nowPerf : ℚ) :
    (setBeat c beat sync src nowPerf).totalBeats = c.totalBeats := by
  simp only [setBeat]
  repeat' split
  all_goals simp [syncScroll_totalBeats]

theorem setBeat_hasLooped (c : Host) (beat : ℚ) (sync : Bool) (src : String) (nowPerf : ℚ) :
    (setBeat c beat sync src nowPerf).hasLooped = c.hasLooped := by
  simp only [setBeat]
  repeat' split
  all_goals simp [syncScroll_hasLooped]

theorem clamp_qOr_nonneg (v tb : ℚ) (htb : 0 ≤ tb) : 0 ≤ clamp v 0 (qOr tb 0) := by
  unfold clamp qOr
  by_cases h : tb = 0
  · rw [if_pos h]
    exact le_min (le_refl 0) (le_max_left 0 v)
  · rw [if_neg h]
    exact le_min htb (le_max_left 0 v)

theorem clamp_qOr_le (v tb : ℚ) (htb : 0 ≤ tb) : clamp v 0 (qOr tb 0) ≤ tb := by
  unfold clamp qOr
  by_cases h : tb = 0
  · rw [if_pos h, h]
    exact min_le_left _ _
  · rw [if_neg h]
    exact min_le_left _ _

theorem setBeat_bounds (c : Host) (beat : ℚ) (sync : Bool) (src : String) (nowPerf : ℚ)
    (htb : 0 ≤ c.totalBeats) :
    0 ≤ (setBeat c beat sync src nowPerf).progress ∧
      (setBeat c beat sync src nowPerf).progress ≤ c.totalBeats := by
  rw [setBeat_progress]
  exact ⟨clamp_qOr_nonneg beat c.totalBeats htb, clamp_qOr_le beat c.totalBeats htb⟩

theorem tickCross_ctx (s : PState) (c : Host) (b aT : ℚ) : (tickCross s c b aT).ctx = c := by
  simp only [tickCross]
  repeat' split
  all_goals rfl

theorem tickFinish_bounds (mid : TickMid) (tb nP : ℚ)
    (hmid : mid.ctx.totalBeats = tb) (htb : 0 ≤ tb) :
    0 ≤ (tickFinish mid tb nP).2.1.progress ∧ (tickFinish mid tb nP).2.1.progress ≤ tb := by
  have h := setBeat_bounds mid.ctx
    (let b2 := if tb ≤ mid.beat then jsMod mid.beat tb else mid.beat
     if b2 < 0 then b2 + tb else b2) true "tick" nP (by rw [hmid]; exact htb)
  rw [hmid] at h
  simpa only [tickFinish] using h

theorem tickAudio_bounds (s : PState) (ctx : Host) (ast t aT nP : ℚ)
    (htb : 0 ≤ ctx.totalBeats) :
    0 ≤ (tickAudio s ctx ast t aT nP).2.1.progress ∧
      (tickAudio s ctx ast t aT nP).2.1.progress ≤ ctx.totalBeats := by
  simp only [tickAudio]
  split
  · apply tickFinish_bounds _ _ _ ?_ htb
    repeat' split
    · rw [tickCross_ctx]
    · rfl
    · rfl
  · exact setBeat_bounds ctx _ true "tick" nP htb

theorem tickFallback_bounds (s : PState) (ctx : Host) (nP : ℚ)
    (htb : 0 ≤ ctx.totalBeats) :
    0 ≤ (tickFallback s ctx nP).2.1.progress ∧
      (tickFallback s ctx nP).2.1.progress ≤ ctx.totalBeats := by
  have key : ∀ c0 : Host, c0.totalBeats = ctx.totalBeats → ∀ b,
      0 ≤ (setBeat c0 b true "tick" nP).progress ∧
        (setBeat c0 b true "tick" nP).progress ≤ ctx.totalBeats := by
    intro c0 hc b
    have h := setBeat_bounds c0 b true "tick" nP (by rw [hc]; exact htb)
    rw [hc] at h
    exact h
  simp only [tickFallback]
  repeat' split
  all_goals exact key _ (by rfl) _

theorem tick_bounds (s : PState) (ctx : Host) (aT nP : ℚ)
    (htb : 0 ≤ ctx.totalBeats) (hp0 : 0 ≤ ctx.progress) (hp1 : ctx.progress ≤ ctx.totalBeats) :
    0 ≤ (tick s ctx aT nP).2.1.progress ∧
      (tick s ctx aT nP).2.1.progress ≤ ctx.totalBeats := by
  simp only [tick]
  by_cases h1 : ctx.playing = false ∨ ctx.reduced = true ∨ ctx.scrubbing = true
  · rw [if_pos h1]
    exact ⟨hp0, hp1⟩
  · rw [if_neg h1]
    by_cases h2 : ¬(0 < s.msPerBeat)
    · rw [if_pos h2]
      exact ⟨hp0, hp1⟩
    · rw [if_neg h2]
      rcases hv : (if s.audioInitDone then s.audioStartTime else none) with _ | ast <;>
        rcases hg : getTime s.pa aT with _ | t <;>
          first
          | exact tickAudio_bounds s ctx ast t aT nP htb
          | exact tickFallback_bounds s ctx nP htb

/-- C8: `setBeat` stores `clamp(beat, 0, totalBeats || 0)`, and `0 ≤ progress ≤
totalBeats` holds after every host operation that updates progress: `setBeat`,
`handleSeek` (all payload shapes), the per-frame `tick`, pointer scrubbing,
shift-wheel input, and user scroll. -/
theorem setBeat_clamp_invariant (ctx : Host) (s : PState) (d : SeekDetail)
    (beat nowPerf clientX deltaY audioTime : ℚ) (sync shiftKey : Bool) (src : String)
    (htb : 0 ≤ ctx.totalBeats) (hp0 : 0 ≤ ctx.progress) (hp1 : ctx.progress ≤ ctx.totalBeats) :
    (setBeat ctx beat sync src nowPerf).progress = clamp beat 0 (qOr ctx.totalBeats 0) ∧
    (0 ≤ (setBeat ctx beat sync src nowPerf).progress ∧
      (setBeat ctx beat sync src nowPerf).progress ≤ ctx.totalBeats) ∧
    (0 ≤ (handleSeekHost ctx d nowPerf).progress ∧
      (handleSeekHost ctx d nowPerf).progress ≤ ctx.totalBeats) ∧
    (0 ≤ (tick s ctx audioTime nowPerf).2.1.progress ∧
      (tick s ctx audioTime nowPerf).2.1.progress ≤ ctx.totalBeats) ∧
    (0 ≤ (onPointerMove ctx clientX nowPerf).progress ∧
      (onPointerMove ctx clientX nowPerf).progress ≤ ctx.totalBeats) ∧
    (0 ≤ (onWheel ctx shiftKey deltaY nowPerf).progress ∧
      (onWheel ctx shiftKey deltaY nowPerf).progress ≤ ctx.totalBeats) ∧
    (0 ≤ (onScroll ctx nowPerf).progress ∧
      (onScroll ctx nowPerf).progress ≤ ctx.totalBeats) := by
  refine ⟨setBeat_progress ctx beat sync src nowPerf,
    setBeat_bounds ctx beat sync src nowPerf htb, ?_,
    tick_bounds s ctx audioTime nowPerf htb hp0 hp1, ?_, ?_, ?_⟩
  · cases d with
    | beat b => exact setBeat_bounds ctx _ true "set" nowPerf htb
    | fraction p => exact setBeat_bounds ctx _ true "set" nowPerf htb
    | deltaBeat dd => exact setBeat_bounds ctx _ true "set" nowPerf htb
    | empty => exact ⟨hp0, hp1⟩
  · simp only [onPointerMove]
    by_cases hs : ctx.scrubbing = false
    · rw [if_pos hs]
      exact ⟨hp0, hp1⟩
    · rw [if_neg hs]
      exact setBeat_bounds ctx _ true "set" nowPerf htb
  · simp only [onWheel]
    by_cases hs : shiftKey = false ∨ ctx.spacing ≤ 0
    · rw [if_pos hs]
      exact ⟨hp0, hp1⟩
    · rw [if_neg hs]
      exact setBeat_bounds ctx _ true "set" nowPerf htb
  · simp only [onScroll]
    by_cases hs : ctx.ignoreScroll = true ∨ ctx.spacing ≤ 0
    · rw [if_pos hs]
      exact ⟨hp0, hp1⟩
    · rw [if_neg hs]
      exact setBeat_bounds ctx _ false "scroll" nowPerf htb

/-- Host fixture for the C8 witness: mid-playback values. -/
def witHost : Host :=
  { totalBeats := 8, spacing := 10, progress := 3, lastProgress := 2
    playheadX := 0, maxScroll := 100, initialScroll := 0, scrollLeft := 30
    playing := true, playStartBeat := 3, playStartTime := 0
    scrubbing := true, resumeAfterScrub := false, scrubStartX := 5
    scrubStartBeat := 3, hasLooped := false, ignoreScroll := false
    reduced := false }

theorem setBeat_clamp_invariant_witness :
    (setBeat witHost 11 true "set" 0).progress = clamp 11 0 (qOr witHost.totalBeats 0) ∧
    (0 ≤ (setBeat witHost 11 true "set" 0).progress ∧
      (setBeat witHost 11 true "set" 0).progress ≤ witHost.totalBeats) ∧
    (0 ≤ (handleSeekHost witHost (SeekDetail.deltaBeat 9) 0).progress ∧
      (handleSeekHost witHost (SeekDetail.deltaBeat 9) 0).progress ≤ witHost.totalBeats) ∧
    (0 ≤ (tick demoPS witHost 2 0).2.1.progress ∧
      (tick demoPS witHost 2 0).2.1.progress ≤ witHost.totalBeats) ∧
    (0 ≤ (onPointerMove witHost 25 0).progress ∧
      (onPointerMove witHost 25 0).progress ≤ witHost.totalBeats) ∧
    (0 ≤ (onWheel witHost true 40 0).progress ∧
      (onWheel witHost true 40 0).progress ≤ witHost.totalBeats) ∧
    (0 ≤ (onScroll witHost 0).progress ∧
      (onScroll witHost 0).progress ≤ witHost.totalBeats) :=
  setBeat_clamp_invariant witHost demoPS (SeekDetail.deltaBeat 9) 11 0 25 40 2 true true "set"
    (by norm_num [witHost]) (by norm_num [witHost]) (by norm_num [witHost])

theorem onTempoChangeHost_progress (h : Host) (nP : ℚ) :
    (onTempoChangeHost h nP).progress = h.progress := by
  simp only [onTempoChangeHost]
  repeat' split
  all_goals rfl

theorem hostsCurrentBeat_map_otc (l : List Host) (nP : ℚ) :
    hostsCurrentBeat (l.map (fun h => onTempoChangeHost h nP)) = hostsCurrentBeat l := by
  cases l <;> simp [hostsCurrentBeat, onTempoChangeHost_progress]

/-- C9: every audio (re)schedule — entering play, a tempo change while
playing, a seek while playing — passes `hosts[0]?.progress || 0` as the start
beat, so the stored `audioStartBeat` is the first host's (possibly freshly
sought) progress, `0` with no hosts or a zero value; the other hosts never
influence it. -/
theorem audioStartBeat_from_first_host (s1 s2 s3 : PState) (env : Bool) (v : ℚ)
    (d : SeekDetail) (aT nP : ℚ) (h : Host) (t t' : List Host)
    (h1p : s1.playing = false) (h1d : s1.audioInitDone = true)
    (h1c : s1.pa.hasCtx = true) (h1i : s1.pa.isInit = true) (h1h : s1.hosts ≠ [])
    (h2v : 0 < v) (h2t : v ≠ s2.tempo) (h2p : s2.playing = true)
    (h2d : s2.audioInitDone = true) (h2c : s2.pa.hasCtx = true)
    (h2i : s2.pa.isInit = true) (h2h : s2.hosts ≠ [])
    (h3p : s3.playing = true) (h3d : s3.audioInitDone = true)
    (h3c : s3.pa.hasCtx = true) (h3i : s3.pa.isInit = true) (h3h : s3.hosts ≠ []) :
    (setPlaying s1 true env aT nP).audioStartBeat = hostsCurrentBeat s1.hosts ∧
    (handleTempoChange s2 v aT nP).audioStartBeat = hostsCurrentBeat s2.hosts ∧
    (psHandleSeek s3 d aT nP).audioStartBeat =
      hostsCurrentBeat (s3.hosts.map (fun hh => handleSeekHost hh d nP)) ∧
    hostsCurrentBeat (h :: t) = hostsCurrentBeat (h :: t') := by
  refine ⟨?_, ?_, ?_, rfl⟩
  · simp [setPlaying, ensureAudioInit, psScheduleAudio, stopAll, getTime,
      h1p, h1d, h1c, h1i, h1h]
  · simp [handleTempoChange, psScheduleAudio, stopAll, getTime, List.map_eq_nil,
      h2v, h2t, h2p, h2d, h2c, h2i, h2h, hostsCurrentBeat_map_otc]
  · simp [psHandleSeek, psScheduleAudio, stopAll, getTime, List.map_eq_nil,
      h3p, h3d, h3c, h3i, h3h]

/-- Stopped-but-audio-ready player over one host (C9 witness). -/
def readyPS : PState :=
  { tempo := 120, msPerBeat := 500, hosts := [witHost], playing := false
    audioScheduled := false, audioStartTime := none, audioStartBeat := 0
    audioInitDone := true, pa := ⟨true, true, []⟩
    notesForAudio := [demoNote], divisions := 1, playDelayMs := 1000
    bodyPlaying := false }

/-- Playing variant of `readyPS` (C9 witness). -/
def playingPS : PState :=
  { readyPS with playing := true, audioStartTime := some 0, bodyPlaying := true }

theorem audioStartBeat_from_first_host_witness :
    (setPlaying readyPS true true 5 7).audioStartBeat = hostsCurrentBeat readyPS.hosts ∧
    (handleTempoChange playingPS 90 5 7).audioStartBeat = hostsCurrentBeat playingPS.hosts ∧
    (psHandleSeek playingPS (SeekDetail.beat 2) 5 7).audioStartBeat =
      hostsCurrentBeat (playingPS.hosts.map (fun hh => handleSeekHost hh (SeekDetail.beat 2) 7)) ∧
    hostsCurrentBeat (witHost :: []) = hostsCurrentBeat (witHost :: [witHost]) :=
  audioStartBeat_from_first_host readyPS playingPS playingPS true 90 (SeekDetail.beat 2) 5 7
    witHost [] [witHost]
    (by decide) (by decide) (by decide) (by decide) (by decide)
    (by decide) (by decide) (by decide) (by decide) (by decide) (by decide) (by decide)
    (by decide) (by decide) (by decide) (by decide) (by decide)

theorem areNotesEquivalent_pitch (n0 n1 : Note) (s0 s1 : ℚ)
    (h : areNotesEquivalent n0 n1 s0 s1 = true) : ∃ p, n1.pitch = some p := by
  unfold areNotesEquivalent at h
  cases hp0 : n0.pitch with
  | none => rw [hp0] at h; simp at h
  | some p0 =>
      cases hp1 : n1.pitch with
      | none => rw [hp0, hp1] at h; simp at h
      | some p1 => exact ⟨p1, rfl⟩

theorem tieSearch_no_match (cur : PosNote) (l : List (ℕ × PosNote)) :
    ∀ (dur : ℚ) (skip : List ℕ),
      (∀ pr ∈ l, ¬(areNotesEquivalent cur.note pr.2.note cur.staff pr.2.staff = true ∧
        hasTieStop pr.2.note = true)) →
      tieSearch cur dur skip l = (dur, skip) := by
  induction l with
  | nil => intro dur skip _; rfl
  | cons hd tl ih =>
      intro dur skip h
      obtain ⟨j, nx⟩ := hd
      simp only [tieSearch]
      cases hpx : nx.note.pitch with
      | none => exact ih dur skip (fun pr hpr => h pr (List.mem_cons_of_mem _ hpr))
      | some px =>
          by_cases heq : areNotesEquivalent cur.note nx.note cur.staff nx.staff = true
          · rw [if_pos heq]
            by_cases hstop : hasTieStop nx.note = true
            · exact absurd ⟨heq, hstop⟩ (h (j, nx) (List.mem_cons_self _ _))
            · rw [if_neg hstop]
              exact ih dur skip (fun pr hpr => h pr (List.mem_cons_of_mem _ hpr))
          · rw [if_neg heq]
            exact ih dur skip (fun pr hpr => h pr (List.mem_cons_of_mem _ hpr))

/-- C2: (a) a three-note tie chain — a tie-start note, a middle note carrying
tie-stop and tie-start, and a final tie-stop note — of equal pitch, staff and
voice collapses to exactly one emitted event whose duration is the sum of the
three durations, the two continuation notes being consumed (skipped) rather
than emitted; (b) a tie-start note with no matching tie-stop anywhere later in
the list is still emitted with its own original duration (nothing is dropped
and no error is raised; the derivation is a total function). -/
theorem tie_chain_and_unterminated
    (i0 i1 i2 : ℕ) (n0 n1 n2 : PosNote) (post : List (ℕ × PosNote)) (skip : List ℕ)
    (p : NotePitch) (j : ℕ) (cur : PosNote) (rest : List (ℕ × PosNote)) (skip2 : List ℕ)
    (q : NotePitch)
    (h0 : i0 ∉ skip) (hp : n0.note.pitch = some p) (hts : hasTieStart n0.note = true)
    (he1 : areNotesEquivalent n0.note n1.note n0.staff n1.staff = true)
    (he2 : areNotesEquivalent n0.note n2.note n0.staff n2.staff = true)
    (h1stop : hasTieStop n1.note = true) (h1start : hasTieStart n1.note = true)
    (h2stop : hasTieStop n2.note = true) (h2start : hasTieStart n2.note = false)
    (hj : j ∉ skip2) (hq : cur.note.pitch = some q) (hcts : hasTieStart cur.note = true)
    (hnomatch : ∀ pr ∈ rest, ¬(areNotesEquivalent cur.note pr.2.note cur.staff pr.2.staff = true ∧
        hasTieStop pr.2.note = true)) :
    tiePass ((i0, n0) :: (i1, n1) :: (i2, n2) :: post) skip =
      { pitch := n0.note.pitch
        duration := n0.note.duration + n1.note.duration + n2.note.duration
        type := n0.note.type
        beat := n0.beat
        slurStart := slurStartOf n0.note
        slurStop := slurStopOf n0.note } :: tiePass post (i2 :: i1 :: skip) ∧
    tiePass ((j, cur) :: rest) skip2 =
      { pitch := cur.note.pitch
        duration := cur.note.duration
        type := cur.note.type
        beat := cur.beat
        slurStart := slurStartOf cur.note
        slurStop := slurStopOf cur.note } :: tiePass rest skip2 := by
  obtain ⟨p1, hp1⟩ := areNotesEquivalent_pitch n0.note n1.note n0.staff n1.staff he1
  obtain ⟨p2, hp2⟩ := areNotesEquivalent_pitch n0.note n2.note n0.staff n2.staff he2
  constructor
  · simp only [tiePass, tieSearch, hp, hp1, hp2, hts, he1, he2, h1stop, h1start,
      h2stop, h2start]
    rw [if_neg h0]
    simp
  · simp only [tiePass, hq, hcts]
    rw [if_neg hj, tieSearch_no_match cur rest cur.note.duration skip2 hnomatch]
    simp

/-- Concrete tied notes for the C2 witness. -/
def tieN (d : ℚ) (tie : Option String) (tied2 : Option String) : Note :=
  ⟨some ⟨"C", 4, none⟩, none, d, 1, "quarter",
    none, tie,
    match tied2 with
    | none => none
    | some t => some ⟨none, some ⟨t⟩⟩⟩

theorem tie_chain_and_unterminated_witness :
    tiePass ((0, ⟨tieN 1 (some "start") none, 1, 1, 0⟩) ::
        (1, ⟨tieN 2 (some "stop") (some "start"), 2, 1, 0⟩) ::
        (2, ⟨tieN 4 (some "stop") none, 4, 1, 0⟩) :: []) [] =
      { pitch := (tieN 1 (some "start") none).pitch
        duration := (tieN 1 (some "start") none).duration +
          (tieN 2 (some "stop") (some "start")).duration + (tieN 4 (some "stop") none).duration
        type := (tieN 1 (some "start") none).type
        beat := 1
        slurStart := slurStartOf (tieN 1 (some "start") none)
        slurStop := slurStopOf (tieN 1 (some "start") none) } :: tiePass [] (2 :: 1 :: []) ∧
    tiePass ((5, ⟨tieN 1 (some "start") none, 3, 1, 0⟩) :: []) [] =
      { pitch := (tieN 1 (some "start") none).pitch
        duration := (tieN 1 (some "start") none).duration
        type := (tieN 1 (some "start") none).type
        beat := 3
        slurStart := slurStartOf (tieN 1 (some "start") none)
        slurStop := slurStopOf (tieN 1 (some "start") none) } :: tiePass [] [] :=
  tie_chain_and_unterminated 0 1 2
    ⟨tieN 1 (some "start") none, 1, 1, 0⟩
    ⟨tieN 2 (some "stop") (some "start"), 2, 1, 0⟩
    ⟨tieN 4 (some "stop") none, 4, 1, 0⟩ [] [] ⟨"C", 4, none⟩
    5 ⟨tieN 1 (some "start") none, 3, 1, 0⟩ [] [] ⟨"C", 4, none⟩
    (by decide) (by decide) (by decide) (by decide) (by decide) (by decide) (by decide)
    (by decide) (by decide) (by decide) (by decide) (by decide) (by simp)

theorem procNote_chord (σ : P1State) (mStart : ℚ) (mIdx : ℕ) (c : Note) (sStaff b : ℚ)
    (hc : isChordT c = true) (hst : staffOf c = sStaff)
    (hb : σ.currentBeats sStaff = b) (hb0 : b ≠ 0) :
    (procNote σ mStart mIdx c).2.beat = b + mStart - 1 ∧
      (procNote σ mStart mIdx c).1.currentBeats sStaff = b := by
  simp only [procNote, hst, hb]
  cases hl : σ.lastNotes sStaff with
  | none => simp [hb0]
  | some ln => simp [hb0, hc]

theorem chordRun (mStart : ℚ) (mIdx : ℕ) (sStaff : ℚ) (chords : List Note) :
    ∀ (σ : P1State) (b : ℚ), 0 < b → σ.currentBeats sStaff = b →
      (∀ c ∈ chords, isChordT c = true ∧ staffOf c = sStaff) →
      (∀ pn ∈ (runNotes σ mStart mIdx chords).1, pn.beat = b + mStart - 1) ∧
        (runNotes σ mStart mIdx chords).2.currentBeats sStaff = b ∧
        (runNotes σ mStart mIdx chords).1.length = chords.length := by
  induction chords with
  | nil =>
      intro σ b _ hb _
      exact ⟨by intro pn hpn; simp [runNotes] at hpn, by simpa [runNotes] using hb, rfl⟩
  | cons c cs ih =>
      intro σ b hb0 hb hall
      obtain ⟨hc, hst⟩ := hall c (List.mem_cons_self _ _)
      have hpc := procNote_chord σ mStart mIdx c sStaff b hc hst hb (ne_of_gt hb0)
      have hrec := ih (procNote σ mStart mIdx c).1 b hb0 hpc.2
        (fun x hx => hall x (List.mem_cons_of_mem _ hx))
      refine ⟨?_, ?_, ?_⟩
      · intro pn hpn
        simp only [runNotes, List.mem_cons] at hpn
        rcases hpn with h | h
        · rw [h]; exact hpc.1
        · exact hrec.1 pn h
      · simpa only [runNotes] using hrec.2.1
      · simpa only [runNotes, List.length_cons] using congrArg Nat.succ hrec.2.2

/-- C6: in the first pass, the `N` chord-flagged notes immediately following a
non-chord note on the same staff all receive that note's absolute start beat
and leave the staff's beat cursor unchanged (and none of them is dropped); the
non-chord note's start beat is the advanced cursor (`1` when the cursor is
fresh, otherwise cursor advanced by the previous note's `duration || 1`), so
the first note of a staff starts at local beat 1. -/
theorem chord_notes_share_beat (st : P1State) (mStart : ℚ) (mIdx : ℕ) (sStaff : ℚ)
    (base : Note) (chords : List Note)
    (hbs : staffOf base = sStaff) (hbc : isChordT base = false)
    (hch : ∀ c ∈ chords, isChordT c = true ∧ staffOf c = sStaff)
    (hcb : 0 ≤ st.currentBeats sStaff)
    (hdur : ∀ ln, st.lastNotes sStaff = some ln → 0 ≤ qOr ln.duration 1) :
    (∀ pn ∈ (runNotes (procNote st mStart mIdx base).1 mStart mIdx chords).1,
        pn.beat = (procNote st mStart mIdx base).2.beat) ∧
    (runNotes (procNote st mStart mIdx base).1 mStart mIdx chords).2.currentBeats sStaff =
      (procNote st mStart mIdx base).1.currentBeats sStaff ∧
    (runNotes (procNote st mStart mIdx base).1 mStart mIdx chords).1.length = chords.length ∧
    (procNote st mStart mIdx base).2.beat =
      (procNote st mStart mIdx base).1.currentBeats sStaff + mStart - 1 ∧
    (procNote st mStart mIdx base).1.currentBeats sStaff =
      (match st.lastNotes sStaff with
       | none => if st.currentBeats sStaff = 0 then 1 else st.currentBeats sStaff
       | some ln => if st.currentBeats sStaff = 0 then 1
           else st.currentBeats sStaff + qOr ln.duration 1) ∧
    (st.lastNotes sStaff = none → st.currentBeats sStaff = 0 →
      (procNote st mStart mIdx base).2.beat = 1 + mStart - 1) := by
  have hshape :
      (procNote st mStart mIdx base).1.currentBeats sStaff =
        (match st.lastNotes sStaff with
         | none => if st.currentBeats sStaff = 0 then 1 else st.currentBeats sStaff
         | some ln => if st.currentBeats sStaff = 0 then 1
             else st.currentBeats sStaff + qOr ln.duration 1) := by
    simp only [procNote, hbs]
    cases hl : st.lastNotes sStaff with
    | none => simp
    | some ln => simp [hbc]
  have hbeat :
      (procNote st mStart mIdx base).2.beat =
        (procNote st mStart mIdx base).1.currentBeats sStaff + mStart - 1 := by
    simp only [procNote, hbs]
    cases hl : st.lastNotes sStaff with
    | none => simp
    | some ln => simp [hbc]
  have hpos : 0 < (procNote st mStart mIdx base).1.currentBeats sStaff := by
    rw [hshape]
    cases hl : st.lastNotes sStaff with
    | none =>
        by_cases h0 : st.currentBeats sStaff = 0
        · simp [h0]
        · simp only [h0, if_false]
          exact lt_of_le_of_ne hcb (fun h => h0 h.symm)
    | some ln =>
        by_cases h0 : st.currentBeats sStaff = 0
        · simp [h0]
        · simp only [h0, if_false]
          have h1 : 0 < st.currentBeats sStaff := lt_of_le_of_ne hcb (fun h => h0 h.symm)
          have h2 : 0 ≤ qOr ln.duration 1 := hdur ln hl
          exact add_pos_of_pos_of_nonneg h1 h2
  have hrun := chordRun mStart mIdx sStaff chords (procNote st mStart mIdx base).1
    ((procNote st mStart mIdx base).1.currentBeats sStaff) hpos rfl hch
  refine ⟨?_, hrun.2.1, hrun.2.2, hbeat, hshape, ?_⟩
  · intro pn hpn
    rw [hbeat]
    exact hrun.1 pn hpn
  · intro hln h0
    rw [hbeat, hshape, hln]
    simp [h0]

/-- Concrete chord run for the C6 witness: a base quarter note followed by two
chord-flagged notes on staff 1. -/
def baseN : Note := ⟨some ⟨"C", 4, none⟩, none, 1, 1, "quarter", none, none, none⟩

/-- Chord-flagged companion of `baseN`. -/
def chordN : Note := ⟨some ⟨"E", 4, none⟩, some true, 1, 1, "quarter", none, none, none⟩

/-- Fresh first-pass state (all cursors 0, no last notes). -/
def freshP1 : P1State := ⟨fun _ => 0, fun _ => none⟩

theorem chord_notes_share_beat_witness :
    (∀ pn ∈ (runNotes (procNote freshP1 1 0 baseN).1 1 0 [chordN, chordN]).1,
        pn.beat = (procNote freshP1 1 0 baseN).2.beat) ∧
    (runNotes (procNote freshP1 1 0 baseN).1 1 0 [chordN, chordN]).2.currentBeats 1 =
      (procNote freshP1 1 0 baseN).1.currentBeats 1 ∧
    (runNotes (procNote freshP1 1 0 baseN).1 1 0 [chordN, chordN]).1.length =
      [chordN, chordN].length ∧
    (procNote freshP1 1 0 baseN).2.beat =
      (procNote freshP1 1 0 baseN).1.currentBeats 1 + 1 - 1 ∧
    (procNote freshP1 1 0 baseN).1.currentBeats 1 =
      (match freshP1.lastNotes 1 with
       | none => if freshP1.currentBeats 1 = 0 then 1 else freshP1.currentBeats 1
       | some ln => if freshP1.currentBeats 1 = 0 then 1
           else freshP1.currentBeats 1 + qOr ln.duration 1) ∧
    (freshP1.lastNotes 1 = none → freshP1.currentBeats 1 = 0 →
      (procNote freshP1 1 0 baseN).2.beat = 1 + 1 - 1) :=
  chord_notes_share_beat freshP1 1 0 1 baseN [chordN, chordN]
    (by decide) (by decide)
    (by intro c hc
        simp only [List.mem_cons, List.not_mem_nil, or_false] at hc
        rcases hc with h | h <;> (rw [h]; exact ⟨by decide, by decide⟩))
    (by decide) (by intro ln hln; simp [freshP1] at hln)

theorem qTrunc_of_nonneg (q : ℚ) (h : 0 ≤ q) : qTrunc q = ⌊q⌋ := if_pos h

theorem jsMod_nonneg (a b : ℚ) (ha : 0 ≤ a) (hb : 0 < b) : 0 ≤ jsMod a b := by
  unfold jsMod
  rw [qTrunc_of_nonneg _ (div_nonneg ha hb.le)]
  have h1 : (⌊a / b⌋ : ℚ) ≤ a / b := Int.floor_le _
  have h2 : b * (⌊a / b⌋ : ℚ) ≤ b * (a / b) := mul_le_mul_of_nonneg_left h1 hb.le
  have h3 : b * (a / b) = a := by field_simp
  linarith

theorem jsMod_lt (a b : ℚ) (ha : 0 ≤ a) (hb : 0 < b) : jsMod a b < b := by
  unfold jsMod
  rw [qTrunc_of_nonneg _ (div_nonneg ha hb.le)]
  have h1 : a / b < (⌊a / b⌋ : ℚ) + 1 := Int.lt_floor_add_one _
  have h2 : a < ((⌊a / b⌋ : ℚ) + 1) * b := (div_lt_iff hb).mp h1
  nlinarith

theorem tfBeat_lt (beat tb : ℚ) (htb : 0 < tb) : tfBeat beat tb < tb := by
  unfold tfBeat
  by_cases hge : tb ≤ beat
  · rw [if_pos hge]
    have hmod := jsMod_lt beat tb (le_trans htb.le hge) htb
    have hnn := jsMod_nonneg beat tb (le_trans htb.le hge) htb
    rw [if_neg (not_lt.mpr hnn)]
    exact hmod
  · rw [if_neg hge]
    by_cases hneg : beat < 0
    · rw [if_pos hneg]
      linarith
    · rw [if_neg hneg]
      exact lt_of_not_ge hge

theorem tfBeat_of_cross (beat tb : ℚ) (htb : 0 < tb) (hge : tb ≤ beat) :
    tfBeat beat tb = jsMod beat tb := by
  unfold tfBeat
  rw [if_pos hge, if_neg (not_lt.mpr (jsMod_nonneg beat tb (le_trans htb.le hge) htb))]

theorem clamp_of_lt (v tb : ℚ) (htb : 0 < tb) (hv : v < tb) :
    0 ≤ clamp v 0 (qOr tb 0) ∧ clamp v 0 (qOr tb 0) < tb := by
  unfold clamp qOr
  rw [if_neg (ne_of_gt htb)]
  constructor
  · exact le_min htb.le (le_max_left 0 v)
  · exact lt_of_le_of_lt (min_le_right _ _) (max_lt htb hv)

theorem tickFinish_progress (mid : TickMid) (tb nP : ℚ) :
    (tickFinish mid tb nP).2.1.progress =
      clamp (tfBeat mid.beat tb) 0 (qOr mid.ctx.totalBeats 0) :=
  setBeat_progress mid.ctx (tfBeat mid.beat tb) true "tick" nP

theorem tickFinish_hasLooped (mid : TickMid) (tb nP : ℚ) :
    (tickFinish mid tb nP).2.1.hasLooped = mid.ctx.hasLooped :=
  setBeat_hasLooped mid.ctx (tfBeat mid.beat tb) true "tick" nP

theorem tickFinish_resched (mid : TickMid) (tb nP : ℚ) :
    (tickFinish mid tb nP).2.2 = mid.resched := rfl

theorem tickFinish_st (mid : TickMid) (tb nP : ℚ) : (tickFinish mid tb nP).1 = mid.st := rfl

theorem tickCross_beat (s : PState) (c : Host) (b t : ℚ) : (tickCross s c b t).beat = b := by
  simp only [tickCross]
  repeat' split
  all_goals rfl

theorem tickCross_resched (s : PState) (c : Host) (b t : ℚ) :
    (tickCross s c b t).resched = s.playing := by
  simp only [tickCross]
  split
  · next hp => split <;> simp [hp]
  · next hp => simp [Bool.not_eq_true] at hp; simp [hp]

theorem psScheduleAudio_ready (s : PState) (fromBeat delay aT : ℚ)
    (hd : s.audioInitDone = true) (hc : s.pa.hasCtx = true) (hi : s.pa.isInit = true) :
    psScheduleAudio s fromBeat delay aT =
      ({ s with
          pa := scheduleNotes { s.pa with sched := [] } s.notesForAudio s.tempo
            s.divisions fromBeat aT
          audioScheduled := true }, some (aT + delay / 1000)) := by
  simp [psScheduleAudio, stopAll, getTime, hd, hc, hi]

theorem tickCross_playing_st (s : PState) (c : Host) (b aT : ℚ) (hsp : s.playing = true)
    (hd : s.audioInitDone = true) (hc : s.pa.hasCtx = true) (hi : s.pa.isInit = true) :
    (tickCross s c b aT).st.audioStartBeat = 0 ∧
      (tickCross s c b aT).st.audioStartTime = some (aT + 0 / 1000) := by
  simp [tickCross, hsp, psScheduleAudio_ready s 0 0 aT hd hc hi]

/-- C5: with looping in effect (`totalBeats > 0`) on the audio-synchronized
path, every tick stores a beat in `[0, totalBeats)`; the loop-crossing audio
reschedule (`scheduleAudio(0, 0)`) fires exactly when the derived raw beat
reaches `totalBeats` with the `hasLooped` latch clear (so at most once per
crossing), it rebases the engine anchor to `(now, 0)`, and the latch is left
set exactly while the raw beat stays past `totalBeats`, clearing only when the
beat re-enters the interior. -/
theorem tick_loop_crossing (s : PState) (ctx : Host) (ast audioTime nowPerf : ℚ)
    (hpl : ctx.playing = true) (hrd : ctx.reduced = false) (hsc : ctx.scrubbing = false)
    (hms : 0 < s.msPerBeat) (hai : s.audioInitDone = true)
    (hast : s.audioStartTime = some ast)
    (hc : s.pa.hasCtx = true) (hi : s.pa.isInit = true)
    (htb : 0 < ctx.totalBeats) (hsp : s.playing = true) :
    (0 ≤ (tick s ctx audioTime nowPerf).2.1.progress ∧
      (tick s ctx audioTime nowPerf).2.1.progress < ctx.totalBeats) ∧
    (tick s ctx audioTime nowPerf).2.2 =
      (decide (ctx.totalBeats ≤ s.audioStartBeat + (audioTime - ast) * 1000 / s.msPerBeat) &&
        !ctx.hasLooped) ∧
    (tick s ctx audioTime nowPerf).2.1.hasLooped =
      decide (ctx.totalBeats ≤ s.audioStartBeat + (audioTime - ast) * 1000 / s.msPerBeat) ∧
    (ctx.totalBeats ≤ s.audioStartBeat + (audioTime - ast) * 1000 / s.msPerBeat →
      ctx.hasLooped = false →
      (tick s ctx audioTime nowPerf).1.audioStartBeat = 0 ∧
        (tick s ctx audioTime nowPerf).1.audioStartTime = some audioTime) := by
  have htick : tick s ctx audioTime nowPerf = tickAudio s ctx ast audioTime audioTime nowPerf := by
    simp [tick, hpl, hrd, hsc, hms, hai, hast, getTime, hc, hi]
  rw [htick]
  simp only [tickAudio]
  rw [if_pos htb]
  have hprog : ∀ mid : TickMid, mid.ctx.totalBeats = ctx.totalBeats →
      0 ≤ (tickFinish mid ctx.totalBeats nowPerf).2.1.progress ∧
        (tickFinish mid ctx.totalBeats nowPerf).2.1.progress < ctx.totalBeats := by
    intro mid hm
    rw [tickFinish_progress, hm]
    exact clamp_of_lt _ _ htb (tfBeat_lt _ _ htb)
  by_cases hcross : ctx.totalBeats ≤ s.audioStartBeat + (audioTime - ast) * 1000 / s.msPerBeat
  · by_cases hlf : ctx.hasLooped = false
    · rw [if_pos ⟨hcross, hlf⟩]
      refine ⟨hprog _ (by rw [tickCross_ctx]), ?_, ?_, ?_⟩
      · rw [tickFinish_resched, tickCross_resched, hsp]
        simp [hcross, hlf]
      · rw [tickFinish_hasLooped, tickCross_ctx]
        simp [hcross]
      · intro _ _
        rw [tickFinish_st]
        have h := tickCross_playing_st s { ctx with hasLooped := true }
          (jsMod (s.audioStartBeat + (audioTime - ast) * 1000 / s.msPerBeat) ctx.totalBeats)
          audioTime hsp hai hc hi
        refine ⟨h.1, ?_⟩
        rw [h.2]
        norm_num
    · rw [if_neg (fun hcl => hlf hcl.2),
        if_neg (fun hcl => (not_lt.mpr hcross) hcl.1)]
      have hl : ctx.hasLooped = true := by
        cases h : ctx.hasLooped
        · exact absurd h hlf
        · rfl
      refine ⟨hprog ⟨s, ctx, _, false⟩ rfl, ?_, ?_, ?_⟩
      · rw [tickFinish_resched]
        simp [hcross, hl]
      · rw [tickFinish_hasLooped]
        simp [hcross, hl]
      · intro _ h2
        exact absurd h2 hlf
  · rw [if_neg (fun hcl => hcross hcl.1)]
    by_cases hlt : ctx.hasLooped = true
    · rw [if_pos ⟨lt_of_not_ge hcross, hlt⟩]
      refine ⟨hprog ⟨s, { ctx with hasLooped := false }, _, false⟩ rfl, ?_, ?_, ?_⟩
      · rw [tickFinish_resched]
        simp [hcross]
      · rw [tickFinish_hasLooped]
        simp [hcross]
      · intro h1 _
        exact absurd h1 hcross
    · rw [if_neg (fun hcl => hlt hcl.2)]
      have hl : ctx.hasLooped = false := by
        cases h : ctx.hasLooped
        · rfl
        · exact absurd h hlt
      refine ⟨hprog ⟨s, ctx, _, false⟩ rfl, ?_, ?_, ?_⟩
      · rw [tickFinish_resched]
        simp [hcross]
      · rw [tickFinish_hasLooped]
        simp [hcross, hl]
      · intro h1 _
        exact absurd h1 hcross

/-- Playing, non-scrubbing host used by the C5 witness. -/
def loopHost : Host :=
  { totalBeats := 8, spacing := 10, progress := 7, lastProgress := 7
    playheadX := 0, maxScroll := 100, initialScroll := 0, scrollLeft := 70
    playing := true, playStartBeat := 0, playStartTime := 0
    scrubbing := false, resumeAfterScrub := false, scrubStartX := 0
    scrubStartBeat := 0, hasLooped := false, ignoreScroll := false
    reduced := false }

theorem tick_loop_crossing_witness :
    (0 ≤ (tick playingPS loopHost 100 7).2.1.progress ∧
      (tick playingPS loopHost 100 7).2.1.progress < loopHost.totalBeats) ∧
    (tick playingPS loopHost 100 7).2.2 =
      (decide (loopHost.totalBeats ≤
          playingPS.audioStartBeat + (100 - 0) * 1000 / playingPS.msPerBeat) &&
        !loopHost.hasLooped) ∧
    (tick playingPS loopHost 100 7).2.1.hasLooped =
      decide (loopHost.totalBeats ≤
        playingPS.audioStartBeat + (100 - 0) * 1000 / playingPS.msPerBeat) ∧
    (loopHost.totalBeats ≤
        playingPS.audioStartBeat + (100 - 0) * 1000 / playingPS.msPerBeat →
      loopHost.hasLooped = false →
      (tick playingPS loopHost 100 7).1.audioStartBeat = 0 ∧
        (tick playingPS loopHost 100 7).1.audioStartTime = some 100) :=
  tick_loop_crossing playingPS loopHost 0 100 7
    (by decide) (by decide) (by decide) (by decide) (by decide) (by decide)
    (by decide) (by decide) (by decide) (by decide)

theorem scheduleNotes_hasCtx (pa : PAState) (notes : List AudioNote) (bpm dv sb now : ℚ) :
    (scheduleNotes pa notes bpm dv sb now).hasCtx = pa.hasCtx := by
  simp only [scheduleNotes]
  split <;> rfl

theorem scheduleNotes_isInit (pa : PAState) (notes : List AudioNote) (bpm dv sb now : ℚ) :
    (scheduleNotes pa notes bpm dv sb now).isInit = pa.isInit := by
  simp only [scheduleNotes]
  split <;> rfl

theorem map_progress_otc (l : List Host) (nP : ℚ) :
    (l.map (fun h => onTempoChangeHost h nP)).map Host.progress = l.map Host.progress := by
  induction l with
  | nil => rfl
  | cons h t ih => simp [onTempoChangeHost_progress, ih]

/-- Normal form of an accepted `handleTempoChange` while playing with a host
and a ready audio pipeline. -/
theorem handleTempoChange_accepted (s : PState) (v aT nP : ℚ)
    (hv : 0 < v) (hvne : v ≠ s.tempo) (hp : s.playing = true) (hne : s.hosts ≠ [])
    (hd : s.audioInitDone = true) (hc : s.pa.hasCtx = true) (hi : s.pa.isInit = true) :
    handleTempoChange s v aT nP =
      { s with
          tempo := v
          msPerBeat := 60 / v * 1000
          hosts := s.hosts.map (fun h => onTempoChangeHost h nP)
          pa := scheduleNotes { s.pa with sched := [] } s.notesForAudio v s.divisions
            (hostsCurrentBeat (s.hosts.map (fun h => onTempoChangeHost h nP))) aT
          audioScheduled := true
          audioStartTime := some (aT + 0 / 1000)
          audioStartBeat := hostsCurrentBeat (s.hosts.map (fun h => onTempoChangeHost h nP)) } := by
  simp [handleTempoChange, psScheduleAudio, stopAll, getTime, List.map_eq_nil_iff,
    hv, hvne, hp, hd, hc, hi, hne]

/-- C7: an accepted tempo change while playing leaves every host's progress
unchanged and re-anchors the engine clock at the first host's current beat and
the current instant, so the beat derived from the anchor at that instant is
unchanged; only `msPerBeat` changes (`60000 / tempo`), and a follow-up change
to double the tempo halves `msPerBeat` while still not moving any beat. -/
theorem tempo_change_beat_continuity (s : PState) (v aT nP : ℚ) (h0 : Host)
    (rest : List Host)
    (hv : 0 < v) (hvne : v ≠ s.tempo) (hp : s.playing = true)
    (hh : s.hosts = h0 :: rest)
    (hd : s.audioInitDone = true) (hc : s.pa.hasCtx = true) (hi : s.pa.isInit = true) :
    (handleTempoChange s v aT nP).msPerBeat = 60 / v * 1000 ∧
    (handleTempoChange s v aT nP).hosts.map Host.progress = s.hosts.map Host.progress ∧
    currentBeatAt (handleTempoChange s v aT nP) aT = some (qOr h0.progress 0) ∧
    (currentBeatAt s aT = some (qOr h0.progress 0) →
      currentBeatAt (handleTempoChange s v aT nP) aT = currentBeatAt s aT) ∧
    (handleTempoChange (handleTempoChange s v aT nP) (2 * v) aT nP).msPerBeat =
      (handleTempoChange s v aT nP).msPerBeat / 2 ∧
    (handleTempoChange (handleTempoChange s v aT nP) (2 * v) aT nP).hosts.map Host.progress =
      s.hosts.map Host.progress := by
  have hne : s.hosts ≠ [] := by rw [hh]; exact List.cons_ne_nil _ _
  have hacc := handleTempoChange_accepted s v aT nP hv hvne hp hne hd hc hi
  have hv0 : v ≠ 0 := ne_of_gt hv
  have hbeat1 : currentBeatAt (handleTempoChange s v aT nP) aT = some (qOr h0.progress 0) := by
    rw [hacc]
    simp only [currentBeatAt, hh, List.map_cons, hostsCurrentBeat,
      onTempoChangeHost_progress]
    have harith : aT - (aT + 0 / 1000) = 0 := by norm_num
    rw [harith]
    norm_num
  have hprog1 : (handleTempoChange s v aT nP).hosts.map Host.progress =
      s.hosts.map Host.progress := by
    rw [hacc]
    exact map_progress_otc s.hosts nP
  -- facts about the state after the first change, needed for the second one
  have h2v : 0 < 2 * v := by linarith
  have h2ne : 2 * v ≠ (handleTempoChange s v aT nP).tempo := by
    rw [hacc]
    show 2 * v ≠ v
    intro h
    have hz : v = 0 := by linarith
    exact hv0 hz
  have h2p : (handleTempoChange s v aT nP).playing = true := by rw [hacc]; exact hp
  have h2h : (handleTempoChange s v aT nP).hosts ≠ [] := by
    rw [hacc]
    simpa [List.map_eq_nil_iff] using hne
  have h2d : (handleTempoChange s v aT nP).audioInitDone = true := by rw [hacc]; exact hd
  have h2c : (handleTempoChange s v aT nP).pa.hasCtx = true := by
    rw [hacc]
    simpa [scheduleNotes_hasCtx] using hc
  have h2i : (handleTempoChange s v aT nP).pa.isInit = true := by
    rw [hacc]
    simpa [scheduleNotes_isInit] using hi
  have hacc2 := handleTempoChange_accepted (handleTempoChange s v aT nP) (2 * v) aT nP
    h2v h2ne h2p h2h h2d h2c h2i
  refine ⟨by rw [hacc], hprog1, hbeat1, ?_, ?_, ?_⟩
  · intro hsync
    rw [hbeat1, hsync]
  · rw [hacc2, hacc]
    show (60 : ℚ) / (2 * v) * 1000 = 60 / v * 1000 / 2
    field_simp
    ring
  · rw [hacc2]
    show ((handleTempoChange s v aT nP).hosts.map
        (fun h => onTempoChangeHost h nP)).map Host.progress = s.hosts.map Host.progress
    rw [map_progress_otc]
    exact hprog1

theorem tempo_change_beat_continuity_witness :
    (handleTempoChange playingPS 60 5 7).msPerBeat = 60 / 60 * 1000 ∧
    (handleTempoChange playingPS 60 5 7).hosts.map Host.progress =
      playingPS.hosts.map Host.progress ∧
    currentBeatAt (handleTempoChange playingPS 60 5 7) 5 = some (qOr witHost.progress 0) ∧
    (currentBeatAt playingPS 5 = some (qOr witHost.progress 0) →
      currentBeatAt (handleTempoChange playingPS 60 5 7) 5 = currentBeatAt playingPS 5) ∧
    (handleTempoChange (handleTempoChange playingPS 60 5 7) (2 * 60) 5 7).msPerBeat =
      (handleTempoChange playingPS 60 5 7).msPerBeat / 2 ∧
    (handleTempoChange (handleTempoChange playingPS 60 5 7) (2 * 60) 5 7).hosts.map
        Host.progress = playingPS.hosts.map Host.progress :=
  tempo_change_beat_continuity playingPS 60 5 7 witHost []
    (by decide) (by decide) (by decide) (by decide) (by decide) (by decide) (by decide)

end ES
